import Mathlib

/-!
Verification of the segmented entity store (`src/index.js`, with the earlier
prototype in `src/unnamed/part_000`).

The JavaScript module is shallowly embedded:

* JavaScript values are `JSVal` (objects are ordered association lists;
  arrays are modelled as objects with index keys).
* The module-level mutable state (`_stores`, the local-storage cache and the
  pending `$q` continuations) is the record `GState`, threaded explicitly.
* Asynchronous continuations registered with `.then` are reified as `Task`
  values in a FIFO queue; `runAll` drains the queue, which matches the
  resolution order of the already-resolved `$q` promises in the source
  (`composeUser` resolves its deferred synchronously, so every `.then`
  callback runs in registration order on the next digest).
* Observable effects (listener invocations, `composeUser` calls, service
  calls, `setLocalStorage` writes, the one-off update callback) are recorded
  as an ordered `Event` trace.
* Listener callbacks are opaque: a `Callback` carries an identity `cbId` and
  the text of its `toString()` (`text`), which is what the dedup logic in
  `patchToStore` compares.  Whether a callback throws when invoked with a
  given value is a parameter `th : Nat -> JSVal -> Bool` (by `cbId`).
-/

namespace StoreSpec

/-- JavaScript values, as far as the store manipulates them.  Objects are
ordered association lists of fields. -/
inductive JSVal where
  | undefV
  | null
  | boolV (b : Bool)
  | numV (n : Int)
  | strV (s : String)
  | objV (fields : List (String × JSVal))

/-- JavaScript truthiness, used by the `data[type] || data` fallbacks. -/
def truthy : JSVal → Bool
  | .undefV => false
  | .null => false
  | .boolV b => b
  | .numV n => n != 0
  | .strV s => s != ""
  | .objV _ => true

/-- `a || b` on JavaScript values. -/
def jsOr (a b : JSVal) : JSVal := if truthy a then a else b

/-- First-match association-list lookup (JavaScript property read). -/
def lookupStr {α : Type} : List (String × α) → String → Option α
  | [], _ => none
  | (k', v) :: r, k => if k' = k then some v else lookupStr r k

/-- JavaScript property write: replace the existing key in place, or append a
new key at the end (insertion order is preserved, as for JS string keys). -/
def insertStr {α : Type} : List (String × α) → String → α → List (String × α)
  | [], k, v => [(k, v)]
  | (k', v') :: r, k, v => if k' = k then (k, v) :: r else (k', v') :: insertStr r k v

/-- `obj[k]`: `undefined` when the key is absent or the value is not an object. -/
def getField : JSVal → String → JSVal
  | .objV fs, k => (lookupStr fs k).getD .undefV
  | _, _ => .undefV

/-- `obj[k] = v`.  A write to a non-object is dropped (the store only ever
writes fields of its composed data objects). -/
def setField : JSVal → String → JSVal → JSVal
  | .objV fs, k, v => .objV (insertStr fs k v)
  | d, _, _ => d

/-- The own enumerable fields of a value (`for key in result` iterates
nothing on a non-object). -/
def fieldsOf : JSVal → List (String × JSVal)
  | .objV fs => fs
  | _ => []

/-- A listener callback: `cbId` is its object identity, `text` the result of
`toString()` that `patchToStore` compares. -/
structure Callback where
  cbId : Nat
  text : String
deriving DecidableEq

/-- A `ListenerObject` from `patchToStore`: a segment type plus a callback. -/
structure Listener where
  type : String
  callback : Callback
deriving DecidableEq

/-- A `Store` as held in `_stores` (and, as a snapshot, in local storage):
`data` is absent until `composeUser` resolves. -/
structure StoreEntry where
  id : String
  dataField : Option JSVal
  listeners : List Listener

/-- `this.data`, reading `undefined` before composition resolves. -/
def dataOf (e : StoreEntry) : JSVal := e.dataField.getD .undefV

/-- `composeUser` resolves its deferred immediately with the empty object
`composedData = {}` (the service queries are left as a comment in the
source). -/
def composedUserData : JSVal := .objV []

/-- Observable effects, in temporal order. -/
inductive Event where
  /-- `broadcastCachedData` invoked the naked listener with a cached value. -/
  | cached (cb : Callback) (v : JSVal)
  /-- the naked listener threw on the cached value (caught and logged). -/
  | cachedThrew (cb : Callback) (v : JSVal)
  /-- a broadcast invoked a listener callback, which returned normally. -/
  | deliver (cb : Callback) (v : JSVal)
  /-- a broadcast invoked a listener callback, which threw. -/
  | deliverThrew (cb : Callback) (v : JSVal)
  /-- `composeUser` was invoked for this id. -/
  | compose (id : String)
  /-- `_services[type][method](query)` was invoked. -/
  | serviceCall (type method : String)
  /-- `setLocalStorage` persisted the entry for this id. -/
  | persist (id : String)
  /-- the optional one-off `update` callback was invoked. -/
  | callbackDone

/-- Deferred `$q` continuations: the `.then` inside the `Store` constructor,
and the `.then` inside `existingStore`. -/
inductive Task where
  | storeResolve (type id : String) (listener : Option Callback)
  | existingResolve (type id : String) (listener : Option Callback)

/-- The module-level mutable state: `_stores`, the namespaced local-storage
cache, and the queue of pending promise continuations. -/
structure GState where
  stores : List (String × StoreEntry)
  cache : List (String × StoreEntry)
  tasks : List Task

/-!  ### `patchToStore` (src/index.js lines 223-247)

The dead-listener removal is a `forEach` that splices the array it is
iterating: `forEach` captures the length up front, visits indices `0..len-1`,
skips indices that have fallen past the current end, and reads the *current*
element at each index, so a removal shifts the remaining elements one slot
left and the element directly after a removed one is never visited.
`forEachSplice rep fuel k arr` is that loop with `fuel` iterations left and
`k` the next index. -/
def forEachSplice (rep : String) : Nat → Nat → List Listener → List Listener
  | 0, _, arr => arr
  | fuel + 1, k, arr =>
    if h : k < arr.length then
      if arr[k].callback.text = rep then
        forEachSplice rep fuel (k + 1) (arr.eraseIdx k)
      else
        forEachSplice rep fuel (k + 1) arr
    else
      forEachSplice rep fuel (k + 1) arr

/-- `patchToStore.call(entry, type, listener)`: remove listeners whose
callback text equals the incoming one, then push the new `ListenerObject`.
(The `if(this.listeners.length > 0)` guard in the source only wraps the
`forEach`, which does nothing on an empty array, so it is dropped here.) -/
def patchToStore (type : String) (cb : Callback) (ls : List Listener) : List Listener :=
  forEachSplice cb.text ls.length 0 ls ++ [⟨type, cb⟩]

/-!  ### `broadcast` (src/index.js lines 71-104) -/

/-- Default (local) mode, lines 94-102: invoke the listeners of this entry whose
type equals the broadcast type with `this.data[type] || this.data`; a throw
is caught and logged, so every matching listener is still invoked. -/
def broadcastLocal (th : Nat → JSVal → Bool) (type : String) (d : JSVal)
    (ls : List Listener) : List Event :=
  (ls.filter (fun l => l.type = type)).map (fun l =>
    let v := jsOr (getField d type) d
    if th l.callback.cbId v then .deliverThrew l.callback v else .deliver l.callback v)

/-- Global-update mode, one entry (lines 80-87): invoke listeners whose type
is the root type `user` or the broadcast type with
`data[l.type] || data`.  There is no try/catch here: a throw aborts the
whole loop (the `Bool` result flags the uncaught exception). -/
def globalGo (th : Nat → JSVal → Bool) (type : String) (d : JSVal) :
    List Listener → List Event × Bool
  | [] => ([], false)
  | l :: rest =>
    if l.type = "user" ∨ l.type = type then
      let v := jsOr (getField d l.type) d
      if th l.callback.cbId v then
        ([.deliverThrew l.callback v], true)
      else
        let (evs, ab) := globalGo th type d rest
        (.deliver l.callback v :: evs, ab)
    else
      globalGo th type d rest

/-- Global-update mode over all stores (`for(var id in _stores)`), stopping
at the first uncaught listener exception. -/
def broadcastGlobal (th : Nat → JSVal → Bool) (type : String) :
    List (String × StoreEntry) → List Event × Bool
  | [] => ([], false)
  | (_, e) :: rest =>
    let (evs, ab) := globalGo th type (dataOf e) e.listeners
    if ab then (evs, true)
    else
      let (evs2, ab2) := broadcastGlobal th type rest
      (evs ++ evs2, ab2)

/-!  ### `broadcastCachedData` (lines 115-133) -/

/-- `broadcastCachedData.call(getLocalStorage(id), type, listener)`: if a
snapshot was found (`this` not `undefined` -- the file is strict mode), a
listener was supplied, and the snapshot has a `data` field, deliver the
whole data when `type === user`, else the named segment; a throw is caught
and logged. -/
def broadcastCachedData (th : Nat → JSVal → Bool) (cachedStore : Option StoreEntry)
    (type : String) (listener : Option Callback) : List Event :=
  match cachedStore, listener with
  | some s, some cb =>
    match s.dataField with
    | some d =>
      let v := if type = "user" then d else getField d type
      if th cb.cbId v then [.cachedThrew cb v] else [.cached cb v]
    | none => []
  | _, _ => []

/-!  ### `get` (lines 194-204), `Store` (lines 22-50), `existingStore`
(lines 160-183)

The synchronous part of `get`: broadcast any cached snapshot, then either
queue the `existingStore` continuation or run the `Store` constructor
(which registers the entry in `_stores` at once, invokes `composeUser`
synchronously, and queues the `.then` continuation of the constructor). -/
def getSync (th : Nat → JSVal → Bool) (st : GState) (type id : String)
    (listener : Option Callback) : GState × List Event :=
  let cachedEvs := broadcastCachedData th (lookupStr st.cache id) type listener
  match lookupStr st.stores id with
  | some _ =>
    ({ st with tasks := st.tasks ++ [.existingResolve type id listener] }, cachedEvs)
  | none =>
    let entry : StoreEntry := ⟨id, none, []⟩
    ({ st with
        stores := insertStr st.stores id entry
        tasks := st.tasks ++ [.storeResolve type id listener] },
     cachedEvs ++ [.compose id])

/-- `setLocalStorage(userStore)`: persist the entry under its id. -/
def setLocalStorage (cache : List (String × StoreEntry)) (e : StoreEntry) :
    List (String × StoreEntry) :=
  insertStr cache e.id e

/-- Run one pending continuation.

`storeResolve` is the `.then` inside the `Store` constructor: set
`this.data` to the composed result, and if a listener was supplied patch it
in and broadcast locally; finally persist the entry.

`existingResolve` is the `.then` inside `existingStore`: if a listener was
supplied, patch it in and broadcast locally (nothing otherwise). -/
def runTask (th : Nat → JSVal → Bool) (st : GState) : Task → GState × List Event
  | .storeResolve type id listener =>
    match lookupStr st.stores id with
    | none => (st, [])
    | some e =>
      let e1 : StoreEntry := { e with dataField := some composedUserData }
      match listener with
      | some cb =>
        let e2 : StoreEntry := { e1 with listeners := patchToStore type cb e1.listeners }
        let evs := broadcastLocal th type (dataOf e2) e2.listeners
        ({ st with
            stores := insertStr st.stores id e2
            cache := setLocalStorage st.cache e2 },
         evs ++ [.persist e2.id])
      | none =>
        ({ st with
            stores := insertStr st.stores id e1
            cache := setLocalStorage st.cache e1 },
         [.persist e1.id])
  | .existingResolve type id listener =>
    match lookupStr st.stores id, listener with
    | some e, some cb =>
      let e2 : StoreEntry := { e with listeners := patchToStore type cb e.listeners }
      let evs := broadcastLocal th type (dataOf e2) e2.listeners
      ({ st with stores := insertStr st.stores id e2 }, evs)
    | _, _ => (st, [])

/-- Drain a task list in FIFO order (none of these continuations queues
another one). -/
def runTaskList (th : Nat → JSVal → Bool) (st : GState) :
    List Task → GState × List Event
  | [] => (st, [])
  | t :: ts =>
    let (st1, evs) := runTask th st t
    let (st2, evs2) := runTaskList th st1 ts
    (st2, evs ++ evs2)

/-- Drain the pending continuation queue. -/
def runAll (th : Nat → JSVal → Bool) (st : GState) : GState × List Event :=
  runTaskList th { st with tasks := [] } st.tasks

/-!  ### `update` (lines 275-321)

`update` mirrors the promise chain of the source, collapsed into one
deterministic computation: the entry resolution (`get` without a listener,
then its continuation), the service call (whose settlement is the
`serviceResult` parameter -- the Query Layer is external), the merge, and
the cascade/no-cascade tail.  `update` itself returns `undefined`
immediately (`ret`); a rejection or an uncaught listener exception inside
the discarded promise chain is recorded in `unhandled`. -/

structure UpdatePayload where
  method : String
  query : JSVal
  foreignUserId : Option String

inductive UpdateRet where
  | undefRet
  | rejected (e : String)
deriving DecidableEq

structure UpdateResult where
  state : GState
  events : List Event
  ret : UpdateRet
  unhandled : Option String

/-- The dollar test of the merge: `key.indexOf(chr) < 0` in the source is
false exactly when the dollar sign occurs somewhere in the key -- anywhere,
not only as a prefix. -/
def hasDollar (k : String) : Bool := k.data.any (fun c => c == '$')

/-- `this.data[key] = result[key]` for every key of the service result whose
name does not contain the reserved character anywhere. -/
def mergeUserFields (d : JSVal) (fs : List (String × JSVal)) : JSVal :=
  fs.foldl (fun acc kv => if hasDollar kv.1 then acc else setField acc kv.1 kv.2) d

/-- The merge step of `update` (lines 283-293). -/
def mergeResult (type : String) (d : JSVal) (result : JSVal) : JSVal :=
  if type = "user" then mergeUserFields d (fieldsOf result) else setField d type result

def update (th : Nat → JSVal → Bool) (st : GState) (type userId : String)
    (payload : UpdatePayload) (callback : Option Callback)
    (serviceResult : Except String JSVal) : UpdateResult :=
  let (st1, e1) := getSync th st type userId none
  let (st2, e2) := runAll th st1
  match lookupStr st2.stores userId with
  | none => ⟨st2, e1 ++ e2, .undefRet, none⟩
  | some s =>
    let evs0 := e1 ++ e2 ++ [.serviceCall type payload.method]
    match serviceResult with
    | .error err =>
      -- the rejected service promise has no handler: nothing more runs and
      -- the rejection is unhandled
      ⟨st2, evs0, .undefRet, some err⟩
    | .ok result =>
      let s1 : StoreEntry := { s with dataField := some (mergeResult type (dataOf s) result) }
      let st3 : GState := { st2 with stores := insertStr st2.stores userId s1 }
      match payload.foreignUserId with
      | none =>
        let (gevs, ab) := broadcastGlobal th type st3.stores
        if ab then
          -- the uncaught listener exception skips setLocalStorage and the
          -- callback, and rejects the (discarded) chain
          ⟨st3, evs0 ++ gevs, .undefRet, some "listener exception"⟩
        else
          let st4 : GState := { st3 with cache := setLocalStorage st3.cache s1 }
          ⟨st4, evs0 ++ gevs ++ [.persist s1.id] ++
              (match callback with | some _ => [.callbackDone] | none => []),
            .undefRet, none⟩
      | some target =>
        -- composeUser(target), then get(user, target) without a listener,
        -- then the foreign continuation
        let evs1 := evs0 ++ [.compose target]
        let (st4, e4) := getSync th st3 "user" target none
        let (st5, e5) := runAll th st4
        match lookupStr st5.stores target with
        | none => ⟨st5, evs1 ++ e4 ++ e5, .undefRet, none⟩
        | some f =>
          let f1 : StoreEntry := { f with dataField := some composedUserData }
          let st6 : GState := { st5 with stores := insertStr st5.stores target f1 }
          let (gevs, ab) := broadcastGlobal th type st6.stores
          if ab then
            ⟨st6, evs1 ++ e4 ++ e5 ++ gevs, .undefRet, some "listener exception"⟩
          else
            let sNow := (lookupStr st6.stores userId).getD s1
            let st7 : GState :=
              { st6 with cache := setLocalStorage (setLocalStorage st6.cache sNow) f1 }
            ⟨st7, evs1 ++ e4 ++ e5 ++ gevs ++ [.persist sNow.id, .persist f1.id] ++
                (match callback with | some _ => [.callbackDone] | none => []),
              .undefRet, none⟩

/-!  ### The prototype (`src/unnamed/part_000`)

The prototype keeps the same `_stores` shape but its mock backend
(`composeUserDataFromServer`) calls the `.then` callback synchronously, so a
`Store` there is fully constructed on return.  Its constructor throws a
`SyntaxError` when no listener is supplied; the factory version in
`src/index.js` has no such check. -/

structure P0Entry where
  id : String
  dataField : Option JSVal
  listeners : List Listener

/-- The prototype mock server response: id, a one-element wishlist (arrays
are modelled as index-keyed objects) and two random counts, which are
parameters here. -/
def p0ServerData (id : String) (followers following : Int) : JSVal :=
  .objV [("id", .strV id),
         ("wishlist", .objV [("0", .objV [("brand", .strV "Armani"),
                                          ("type", .strV "Handbag"),
                                          ("color", .strV "Brown")])]),
         ("followers", .numV followers),
         ("following", .numV following)]

/-- The prototype `Store` constructor (part_000 lines 83-115): throw when the
listener is missing, else register the entry, compose synchronously via the
mock backend and patch the listener (the prototype `patchToStore` is
textually the same removal-then-push as the factory one). -/
def p0StoreNew (serverData : JSVal) (stores : List (String × P0Entry))
    (type id : String) (listener : Option Callback) :
    Except String (List (String × P0Entry)) :=
  match listener with
  | none => .error "A new store requires a listener!"
  | some cb =>
    .ok (insertStr stores id ⟨id, some serverData, patchToStore type cb []⟩)

/-- The prototype `get` (part_000 lines 155-183). -/
def p0get (serverData : JSVal) (stores : List (String × P0Entry))
    (type id : String) (listener : Option Callback) :
    Except String (List (String × P0Entry)) :=
  match lookupStr stores id with
  | some e =>
    match listener with
    | some cb =>
      .ok (insertStr stores id { e with listeners := patchToStore type cb e.listeners })
    | none => .ok stores
  | none => p0StoreNew serverData stores type id listener

/-- The prototype `update` (part_000 lines 129-152): `get` without a
listener, then `store.data[type] = val` and a local broadcast (whose events
are not tracked here). -/
def p0update (serverData : JSVal) (stores : List (String × P0Entry))
    (type id : String) (val : JSVal) : Except String (List (String × P0Entry)) :=
  match p0get serverData stores type id none with
  | .error e => .error e
  | .ok stores1 =>
    match lookupStr stores1 id with
    | some e =>
      .ok (insertStr stores1 id
        { e with dataField := some (setField (e.dataField.getD .undefV) type val) })
    | none => .ok stores1

/-!  ## Observers on event traces -/

/-- Is this a `compose` event for the given id? -/
def isComposeFor (i : String) : Event → Bool
  | .compose j => j = i
  | _ => false

/-- Is this the one-off update callback invocation? -/
def isCallbackDoneEv : Event → Bool
  | .callbackDone => true
  | _ => false

/-- Did this event invoke (without a throw) the callback with this identity? -/
def deliverOkTo (n : Nat) : Event → Bool
  | .deliver cb _ => cb.cbId = n
  | _ => false

/-- Does the trace contain a completed delivery to this callback identity? -/
def hasDeliverTo (n : Nat) (evs : List Event) : Bool := evs.any (deliverOkTo n)

/-- Number of entries stored under a key. -/
def countKey {α : Type} (l : List (String × α)) (k : String) : Nat :=
  l.countP (fun p => p.1 = k)

/-!  ## Association-list lemmas -/

theorem lookupStr_insertStr_self {α : Type} (l : List (String × α)) (k : String) (v : α) :
    lookupStr (insertStr l k v) k = some v := by
  induction l with
  | nil => simp [insertStr, lookupStr]
  | cons p r ih =>
    by_cases h : p.1 = k
    · simp [insertStr, lookupStr, h]
    · simpa [insertStr, lookupStr, h] using ih

theorem mem_insertStr_self {α : Type} (l : List (String × α)) (k : String) (v : α) :
    (k, v) ∈ insertStr l k v := by
  induction l with
  | nil => simp [insertStr]
  | cons p r ih =>
    by_cases h : p.1 = k
    · simp [insertStr, h]
    · simp only [insertStr, h, if_false]
      exact List.mem_cons_of_mem p ih

theorem mem_insertStr {α : Type} {l : List (String × α)} {q : String × α}
    (k : String) (v : α) (hq : q ∈ insertStr l k v) : q ∈ l ∨ q = (k, v) := by
  induction l with
  | nil => simpa [insertStr] using hq
  | cons p r ih =>
    by_cases h : p.1 = k
    · simp only [insertStr, h, if_true] at hq
      rcases List.mem_cons.mp hq with h1 | h1
      · exact Or.inr h1
      · exact Or.inl (List.mem_cons_of_mem p h1)
    · simp only [insertStr, h, if_false] at hq
      rcases List.mem_cons.mp hq with h1 | h1
      · exact Or.inl (h1 ▸ List.mem_cons_self p r)
      · rcases ih h1 with h2 | h2
        · exact Or.inl (List.mem_cons_of_mem p h2)
        · exact Or.inr h2

theorem countKey_of_lookup_none {α : Type} {l : List (String × α)} {k : String}
    (h : lookupStr l k = none) : countKey l k = 0 := by
  induction l with
  | nil => rfl
  | cons p r ih =>
    by_cases hp : p.1 = k
    · simp [lookupStr, hp] at h
    · simp only [lookupStr, hp, if_false] at h
      have h0 := ih h
      simp only [countKey, List.countP_cons] at h0 ⊢
      simp [hp, h0]

theorem countKey_insertStr_of_lookup_none {α : Type} {l : List (String × α)} {k : String}
    (v : α) (h : lookupStr l k = none) : countKey (insertStr l k v) k = 1 := by
  induction l with
  | nil => simp [insertStr, countKey, List.countP_cons]
  | cons p r ih =>
    by_cases hp : p.1 = k
    · simp [lookupStr, hp] at h
    · simp only [lookupStr, hp, if_false] at h
      simp [insertStr, countKey, List.countP_cons, hp] at ih ⊢
      exact ih h

theorem countKey_insertStr_of_lookup_some {α : Type} {l : List (String × α)} {k : String}
    {w : α} (v : α) (h : lookupStr l k = some w) :
    countKey (insertStr l k v) k = countKey l k := by
  induction l with
  | nil => simp [lookupStr] at h
  | cons p r ih =>
    by_cases hp : p.1 = k
    · obtain ⟨k0, v0⟩ := p
      simp only at hp
      subst hp
      simp [insertStr, countKey, List.countP_cons]
    · simp only [lookupStr, hp, if_false] at h
      have h0 := ih h
      simp only [countKey] at h0
      simp [insertStr, countKey, List.countP_cons, hp, h0]

/-!  ## Event-shape lemmas for the various broadcast paths -/

theorem broadcastCachedData_shape (th : Nat → JSVal → Bool) (c : Option StoreEntry)
    (type : String) (listener : Option Callback) :
    ∀ ev ∈ broadcastCachedData th c type listener,
      ∃ cb v, ev = Event.cached cb v ∨ ev = Event.cachedThrew cb v := by
  intro ev hev
  match c, listener with
  | some s, some cb =>
    match hs : s.dataField with
    | some d =>
      simp only [broadcastCachedData, hs] at hev
      split at hev <;> split at hev <;> rw [List.mem_singleton] at hev <;> subst hev <;>
        first
          | exact ⟨cb, _, Or.inl rfl⟩
          | exact ⟨cb, _, Or.inr rfl⟩
    | none => simp [broadcastCachedData, hs] at hev
  | some _, none => simp [broadcastCachedData] at hev
  | none, _ => simp [broadcastCachedData] at hev

theorem mem_broadcastLocal (th : Nat → JSVal → Bool) (type : String) (d : JSVal)
    (ls : List Listener) :
    ∀ ev ∈ broadcastLocal th type d ls,
      ∃ l ∈ ls, l.type = type ∧
        (ev = Event.deliver l.callback (jsOr (getField d type) d) ∨
         ev = Event.deliverThrew l.callback (jsOr (getField d type) d)) := by
  intro ev hev
  simp only [broadcastLocal, List.mem_map] at hev
  obtain ⟨l, hl, hev⟩ := hev
  rw [List.mem_filter] at hl
  refine ⟨l, hl.1, by simpa using hl.2, ?_⟩
  split at hev
  · exact Or.inr hev.symm
  · exact Or.inl hev.symm

theorem broadcastLocal_mem (th : Nat → JSVal → Bool) (type : String) (d : JSVal)
    {ls : List Listener} {l : Listener} (hl : l ∈ ls) (ht : l.type = type) :
    Event.deliver l.callback (jsOr (getField d type) d) ∈ broadcastLocal th type d ls ∨
    Event.deliverThrew l.callback (jsOr (getField d type) d) ∈ broadcastLocal th type d ls := by
  have hmem : l ∈ ls.filter (fun l => l.type = type) :=
    List.mem_filter.mpr ⟨hl, by simpa using ht⟩
  by_cases hth : th l.callback.cbId (jsOr (getField d type) d)
  · right
    simpa only [broadcastLocal, hth, if_true] using
      List.mem_map_of_mem (fun l => if th l.callback.cbId (jsOr (getField d type) d)
        then Event.deliverThrew l.callback (jsOr (getField d type) d)
        else Event.deliver l.callback (jsOr (getField d type) d)) hmem
  · left
    simpa only [broadcastLocal, hth, if_false] using
      List.mem_map_of_mem (fun l => if th l.callback.cbId (jsOr (getField d type) d)
        then Event.deliverThrew l.callback (jsOr (getField d type) d)
        else Event.deliver l.callback (jsOr (getField d type) d)) hmem

theorem mem_globalGo (th : Nat → JSVal → Bool) (type : String) (d : JSVal)
    (ls : List Listener) :
    ∀ ev ∈ (globalGo th type d ls).1,
      ∃ l ∈ ls, (l.type = "user" ∨ l.type = type) ∧
        (ev = Event.deliver l.callback (jsOr (getField d l.type) d) ∨
         ev = Event.deliverThrew l.callback (jsOr (getField d l.type) d)) := by
  intro ev hev
  induction ls with
  | nil => simp [globalGo] at hev
  | cons l rest ih =>
    by_cases hm : l.type = "user" ∨ l.type = type
    · simp only [globalGo, hm, if_true] at hev
      split at hev
      · simp only [List.mem_singleton] at hev
        exact ⟨l, List.mem_cons_self l rest, hm, Or.inr hev⟩
      · rcases List.mem_cons.mp hev with h1 | h1
        · exact ⟨l, List.mem_cons_self l rest, hm, Or.inl h1⟩
        · obtain ⟨l2, hl2, h2⟩ := ih h1
          exact ⟨l2, List.mem_cons_of_mem l hl2, h2⟩
    · simp only [globalGo, hm, if_false] at hev
      obtain ⟨l2, hl2, h2⟩ := ih hev
      exact ⟨l2, List.mem_cons_of_mem l hl2, h2⟩

/-- When no listener throws, global-mode delivery over one entry reaches
every matching listener and does not abort. -/
theorem globalGo_total (th : Nat → JSVal → Bool) (hth : ∀ n v, th n v = false)
    (type : String) (d : JSVal) (ls : List Listener) :
    (globalGo th type d ls).2 = false ∧
    ∀ l ∈ ls, (l.type = "user" ∨ l.type = type) →
      Event.deliver l.callback (jsOr (getField d l.type) d) ∈ (globalGo th type d ls).1 := by
  induction ls with
  | nil => simp [globalGo]
  | cons l rest ih =>
    by_cases hm : l.type = "user" ∨ l.type = type
    · simp only [globalGo, hm, if_true, hth, if_false]
      refine ⟨ih.1, ?_⟩
      intro l2 hl2 hm2
      rcases List.mem_cons.mp hl2 with h1 | h1
      · subst h1; exact List.mem_cons_self _ _
      · exact List.mem_cons_of_mem _ (ih.2 l2 h1 hm2)
    · simp only [globalGo, hm, if_false]
      refine ⟨ih.1, ?_⟩
      intro l2 hl2 hm2
      rcases List.mem_cons.mp hl2 with h1 | h1
      · subst h1; exact absurd hm2 hm
      · exact ih.2 l2 h1 hm2

theorem mem_broadcastGlobal (th : Nat → JSVal → Bool) (type : String)
    (stores : List (String × StoreEntry)) :
    ∀ ev ∈ (broadcastGlobal th type stores).1,
      ∃ p ∈ stores, ∃ l ∈ p.2.listeners, (l.type = "user" ∨ l.type = type) ∧
        (ev = Event.deliver l.callback (jsOr (getField (dataOf p.2) l.type) (dataOf p.2)) ∨
         ev = Event.deliverThrew l.callback (jsOr (getField (dataOf p.2) l.type) (dataOf p.2))) := by
  intro ev hev
  induction stores with
  | nil => simp [broadcastGlobal] at hev
  | cons p rest ih =>
    obtain ⟨sid, e⟩ := p
    simp only [broadcastGlobal] at hev
    split at hev
    · obtain ⟨l, hl, h2⟩ := mem_globalGo th type (dataOf e) e.listeners ev hev
      exact ⟨(sid, e), List.mem_cons_self _ _, l, hl, h2⟩
    · rcases List.mem_append.mp hev with h1 | h1
      · obtain ⟨l, hl, h2⟩ := mem_globalGo th type (dataOf e) e.listeners ev h1
        exact ⟨(sid, e), List.mem_cons_self _ _, l, hl, h2⟩
      · obtain ⟨q, hq, l, hl, h2⟩ := ih h1
        exact ⟨q, List.mem_cons_of_mem _ hq, l, hl, h2⟩

/-- When no listener throws, global-mode broadcast reaches every matching
listener of every store and does not abort. -/
theorem broadcastGlobal_total (th : Nat → JSVal → Bool) (hth : ∀ n v, th n v = false)
    (type : String) (stores : List (String × StoreEntry)) :
    (broadcastGlobal th type stores).2 = false ∧
    ∀ p ∈ stores, ∀ l ∈ p.2.listeners, (l.type = "user" ∨ l.type = type) →
      Event.deliver l.callback (jsOr (getField (dataOf p.2) l.type) (dataOf p.2)) ∈
        (broadcastGlobal th type stores).1 := by
  induction stores with
  | nil => simp [broadcastGlobal]
  | cons p rest ih =>
    obtain ⟨sid, e⟩ := p
    have hgo := globalGo_total th hth type (dataOf e) e.listeners
    simp only [broadcastGlobal, hgo.1, if_false]
    refine ⟨ih.1, ?_⟩
    intro q hq l hl hm
    rcases List.mem_cons.mp hq with h1 | h1
    · subst h1
      exact List.mem_append_left _ (hgo.2 l hl hm)
    · exact List.mem_append_right _ (ih.2 q h1 l hl hm)

/-!  ## The `patchToStore` dedup invariant

The splice-inside-forEach loop can skip an element (the one shifted into a
removed slot), so it only removes *all* matches when at most one match is
present -- which is exactly the invariant the listener collections maintain,
since every registration goes through `patchToStore`. -/

/-- Does this listener carry the given callback text? -/
def matchText (rep : String) (l : Listener) : Bool := l.callback.text == rep

/-- The filter that keeps the listeners whose callback text differs. -/
def keepText (rep : String) (l : Listener) : Bool := !(l.callback.text == rep)

theorem matchText_eq_true {rep : String} {l : Listener} :
    matchText rep l = true ↔ l.callback.text = rep := by
  simp [matchText]

theorem keepText_eq_true {rep : String} {l : Listener} :
    keepText rep l = true ↔ ¬ l.callback.text = rep := by
  simp [keepText]

/-- No two listeners of the collection share a callback text. -/
def UniqTexts (ls : List Listener) : Prop :=
  ls.Pairwise (fun a b => a.callback.text ≠ b.callback.text)

theorem forEachSplice_no_match (rep : String) :
    ∀ (fuel k : Nat) (arr : List Listener),
      (∀ l ∈ arr.drop k, l.callback.text ≠ rep) →
      forEachSplice rep fuel k arr = arr
  | 0, _, _, _ => rfl
  | fuel + 1, k, arr, h => by
    by_cases hk : k < arr.length
    · have hdec : arr.drop k = arr[k] :: arr.drop (k + 1) := List.drop_eq_getElem_cons hk
      have hne : arr[k].callback.text ≠ rep :=
        h arr[k] (hdec ▸ List.mem_cons_self _ _)
      rw [forEachSplice, dif_pos hk, if_neg hne]
      exact forEachSplice_no_match rep fuel (k + 1) arr
        (fun l hl => h l (hdec ▸ List.mem_cons_of_mem _ hl))
    · rw [forEachSplice, dif_neg hk]
      exact forEachSplice_no_match rep fuel (k + 1) arr
        (by rw [List.drop_of_length_le (by omega)]; intro l hl; simp at hl)

theorem forEachSplice_single (rep : String) :
    ∀ (fuel k : Nat) (arr : List Listener),
      arr.length ≤ fuel + k →
      (arr.drop k).countP (matchText rep) ≤ 1 →
      forEachSplice rep fuel k arr =
        arr.take k ++ (arr.drop k).filter (keepText rep)
  | 0, k, arr, hlen, _ => by
    have hk : arr.length ≤ k := by omega
    rw [forEachSplice, List.drop_of_length_le hk, List.take_of_length_le hk]
    simp
  | fuel + 1, k, arr, hlen, hcnt => by
    by_cases hk : k < arr.length
    · have hdec : arr.drop k = arr[k] :: arr.drop (k + 1) := List.drop_eq_getElem_cons hk
      by_cases hm : arr[k].callback.text = rep
      · -- the single match: it is spliced out and nothing further matches
        rw [forEachSplice, dif_pos hk, if_pos hm]
        have h0 : (arr.drop (k + 1)).countP (matchText rep) = 0 := by
          rw [hdec, List.countP_cons] at hcnt
          have hmt : matchText rep arr[k] = true := matchText_eq_true.mpr hm
          rw [hmt, if_pos rfl] at hcnt
          omega
        have h0m : ∀ l ∈ arr.drop (k + 1), ¬ l.callback.text = rep := by
          intro l hl
          have := List.countP_eq_zero.mp h0 l hl
          exact fun he => this (matchText_eq_true.mpr he)
        have he : arr.eraseIdx k = arr.take k ++ arr.drop (k + 1) :=
          List.eraseIdx_eq_take_drop_succ arr k
        have hlen_take : (arr.take k).length = k := by
          rw [List.length_take]; omega
        have hdrop2 : (arr.eraseIdx k).drop (k + 1) = (arr.drop (k + 1)).drop 1 := by
          rw [he, List.drop_append_eq_append_drop, hlen_take,
            List.drop_of_length_le (by rw [hlen_take]; omega)]
          have h1 : k + 1 - k = 1 := by omega
          rw [h1, List.nil_append]
        have hnm : ∀ l ∈ (arr.eraseIdx k).drop (k + 1), l.callback.text ≠ rep := by
          rw [hdrop2]
          intro l hl
          exact h0m l (List.drop_subset 1 _ hl)
        rw [forEachSplice_no_match rep fuel (k + 1) (arr.eraseIdx k) hnm, he, hdec,
          List.filter_cons]
        have hcond : keepText rep arr[k] = false := by
          simp [keepText, hm]
        rw [hcond, if_neg (by simp),
          List.filter_eq_self.mpr (fun a ha => keepText_eq_true.mpr (h0m a ha))]
      · -- no match at this index: step on
        rw [forEachSplice, dif_pos hk, if_neg hm]
        have hcnt2 : (arr.drop (k + 1)).countP (matchText rep) ≤ 1 := by
          rw [hdec, List.countP_cons] at hcnt
          omega
        rw [forEachSplice_single rep fuel (k + 1) arr (by omega) hcnt2, hdec,
          List.filter_cons]
        have hcond : keepText rep arr[k] = true := keepText_eq_true.mpr hm
        rw [hcond, if_pos rfl]
        have htake : arr.take (k + 1) = arr.take k ++ [arr[k]] := by
          rw [List.take_succ, List.getElem?_eq_getElem hk]
          rfl
        rw [htake, List.append_assoc]
        rfl
    · rw [forEachSplice, dif_neg hk]
      have hk2 : arr.length ≤ k := by omega
      rw [forEachSplice_single rep fuel (k + 1) arr (by omega)
          (by rw [List.drop_of_length_le (by omega)]; simp),
        List.drop_of_length_le hk2, List.drop_of_length_le (by omega),
        List.take_of_length_le hk2, List.take_of_length_le (by omega)]

theorem countP_matches_le_one {ls : List Listener} (h : UniqTexts ls) (rep : String) :
    ls.countP (matchText rep) ≤ 1 := by
  induction ls with
  | nil => simp
  | cons a t ih =>
    rw [UniqTexts, List.pairwise_cons] at h
    by_cases ha : a.callback.text = rep
    · have h0 : t.countP (matchText rep) = 0 := by
        rw [List.countP_eq_zero]
        intro b hb hmb
        exact (h.1 b hb) (ha.trans (matchText_eq_true.mp hmb).symm)
      rw [List.countP_cons, h0, matchText_eq_true.mpr ha, if_pos rfl]
    · rw [List.countP_cons]
      have hmb : matchText rep a = false := by
        simp [matchText, ha]
      rw [hmb]
      have := ih h.2
      simp
      omega

/-- On a collection satisfying the invariant, `patchToStore` removes exactly
the listeners whose callback text matches, then appends the new record. -/
theorem patchToStore_eq_filter {ls : List Listener} (h : UniqTexts ls)
    (t : String) (cb : Callback) :
    patchToStore t cb ls = ls.filter (keepText cb.text) ++ [⟨t, cb⟩] := by
  unfold patchToStore
  rw [forEachSplice_single cb.text ls.length 0 ls (by omega)
    (by simpa using countP_matches_le_one h cb.text)]
  simp

/-- `patchToStore` preserves the invariant. -/
theorem uniqTexts_patchToStore {ls : List Listener} (h : UniqTexts ls)
    (t : String) (cb : Callback) : UniqTexts (patchToStore t cb ls) := by
  rw [patchToStore_eq_filter h, UniqTexts, List.pairwise_append]
  refine ⟨h.filter _, List.pairwise_singleton _ _, ?_⟩
  intro a ha b hb
  rw [List.mem_singleton] at hb
  subst hb
  exact keepText_eq_true.mp (List.of_mem_filter ha)

/-- The empty collection (a new entry) satisfies the invariant. -/
theorem uniqTexts_nil : UniqTexts [] := List.Pairwise.nil

/-- The new record itself belongs to the patched collection. -/
theorem self_mem_patchToStore (t : String) (cb : Callback) (ls : List Listener) :
    (⟨t, cb⟩ : Listener) ∈ patchToStore t cb ls := by
  unfold patchToStore
  exact List.mem_append_right _ (List.mem_singleton_self _)

/-!  ## Computation lemmas for `update` -/

theorem lookupStr_insertStr_ne {α : Type} (l : List (String × α)) {k k2 : String}
    (v : α) (h : k2 ≠ k) : lookupStr (insertStr l k v) k2 = lookupStr l k2 := by
  induction l with
  | nil => simp [insertStr, lookupStr, Ne.symm h]
  | cons p r ih =>
    by_cases hp : p.1 = k
    · obtain ⟨k0, v0⟩ := p
      simp only at hp
      subst hp
      simp [insertStr, lookupStr, Ne.symm h]
    · simp only [insertStr, hp, if_false]
      simp [lookupStr, ih]

theorem broadcastCachedData_none_listener (th : Nat → JSVal → Bool)
    (c : Option StoreEntry) (type : String) :
    broadcastCachedData th c type none = [] := by
  cases c <;> rfl

/-- The entry-resolution step that `update` performs: `get` without a
listener on an existing entry only queues a continuation that does
nothing. -/
theorem getSync_existing_none (th : Nat → JSVal → Bool) (st : GState) (t i : String)
    (s : StoreEntry) (hs : lookupStr st.stores i = some s) (ht : st.tasks = []) :
    getSync th st t i none = ({ st with tasks := [Task.existingResolve t i none] }, []) ∧
    runAll th { st with tasks := [Task.existingResolve t i none] } =
      ({ st with tasks := [] }, []) := by
  constructor
  · simp only [getSync, broadcastCachedData_none_listener, hs, ht, List.nil_append]
  · simp only [runAll, runTaskList, runTask, hs, List.append_nil]

/-- The entry after the merge step of `update`. -/
def mergedEntry (type : String) (result : JSVal) (s : StoreEntry) : StoreEntry :=
  { s with dataField := some (mergeResult type (dataOf s) result) }

/-- A rejected Query Layer call: nothing after the service invocation runs,
the state is untouched, and the rejection is unhandled (the chain is
discarded; `update` has already returned `undefined`). -/
theorem update_error_eq (th : Nat → JSVal → Bool) (st : GState) (type userId : String)
    (payload : UpdatePayload) (callback : Option Callback) (err : String)
    (s : StoreEntry) (hs : lookupStr st.stores userId = some s) (ht : st.tasks = []) :
    update th st type userId payload callback (.error err) =
      ⟨{ st with tasks := [] }, [Event.serviceCall type payload.method],
       .undefRet, some err⟩ := by
  have h1 := (getSync_existing_none th st type userId s hs ht).1
  have h2 := (getSync_existing_none th st type userId s hs ht).2
  simp only [update, h1, h2, hs, List.nil_append]

/-- The no-cascade path of `update` with a successful Query Layer call. -/
theorem update_no_cascade_eq (th : Nat → JSVal → Bool) (st : GState)
    (type userId : String) (payload : UpdatePayload) (callback : Option Callback)
    (result : JSVal) (s : StoreEntry)
    (hs : lookupStr st.stores userId = some s) (ht : st.tasks = [])
    (hf : payload.foreignUserId = none)
    (hab : (broadcastGlobal th type
      (insertStr st.stores userId (mergedEntry type result s))).2 = false) :
    update th st type userId payload callback (.ok result) =
      ⟨⟨insertStr st.stores userId (mergedEntry type result s),
        setLocalStorage st.cache (mergedEntry type result s), []⟩,
       [Event.serviceCall type payload.method] ++
         (broadcastGlobal th type
           (insertStr st.stores userId (mergedEntry type result s))).1 ++
         [Event.persist s.id] ++
         (match callback with | some _ => [Event.callbackDone] | none => []),
       .undefRet, none⟩ := by
  have h1 := (getSync_existing_none th st type userId s hs ht).1
  have h2 := (getSync_existing_none th st type userId s hs ht).2
  simp only [mergedEntry] at hab ⊢
  simp only [update, h1, h2, hs, hf, List.nil_append, hab,
    Bool.false_eq_true, if_false, setLocalStorage]

/-- The cascade path of `update` with a successful Query Layer call, when the
foreign entry already exists and is a different entity. -/
theorem update_cascade_eq (th : Nat → JSVal → Bool) (st : GState)
    (type userId target : String) (payload : UpdatePayload)
    (callback : Option Callback) (result : JSVal) (s f : StoreEntry)
    (hs : lookupStr st.stores userId = some s) (ht : st.tasks = [])
    (hf : payload.foreignUserId = some target)
    (hft : lookupStr st.stores target = some f) (hne : target ≠ userId)
    (hab : (broadcastGlobal th type
      (insertStr (insertStr st.stores userId (mergedEntry type result s)) target
        { f with dataField := some composedUserData })).2 = false) :
    update th st type userId payload callback (.ok result) =
      ⟨⟨insertStr (insertStr st.stores userId (mergedEntry type result s)) target
          { f with dataField := some composedUserData },
        setLocalStorage
          (setLocalStorage st.cache (mergedEntry type result s))
          { f with dataField := some composedUserData }, []⟩,
       [Event.serviceCall type payload.method, Event.compose target] ++
         (broadcastGlobal th type
           (insertStr (insertStr st.stores userId (mergedEntry type result s)) target
             { f with dataField := some composedUserData })).1 ++
         [Event.persist s.id, Event.persist f.id] ++
         (match callback with | some _ => [Event.callbackDone] | none => []),
       .undefRet, none⟩ := by
  have h1 := (getSync_existing_none th st type userId s hs ht).1
  have h2 := (getSync_existing_none th st type userId s hs ht).2
  -- the state after the merge, on which the inner get(user, target) runs
  have hst3 : lookupStr (insertStr st.stores userId (mergedEntry type result s)) target =
      some f := by rw [lookupStr_insertStr_ne _ _ hne, hft]
  have h3 := (getSync_existing_none th
    ⟨insertStr st.stores userId (mergedEntry type result s),
     st.cache, []⟩ "user" target f hst3 rfl).1
  have h4 := (getSync_existing_none th
    ⟨insertStr st.stores userId (mergedEntry type result s),
     st.cache, []⟩ "user" target f hst3 rfl).2
  have hlook2 : lookupStr (insertStr (insertStr st.stores userId (mergedEntry type result s))
      target { f with dataField := some composedUserData }) userId =
      some (mergedEntry type result s) := by
    rw [lookupStr_insertStr_ne _ _ (Ne.symm hne)]
    exact lookupStr_insertStr_self _ _ _
  simp only [mergedEntry] at hab h3 h4 hst3 hlook2 ⊢
  simp only [update, h1, h2, hs, hf, List.nil_append]
  simp only [h3, h4, hst3, hlook2, hab, Bool.false_eq_true, if_false,
    Option.getD_some, List.nil_append, List.append_nil, List.cons_append,
    setLocalStorage]

/-!  ## Concrete sample data used by witnesses and counterexamples -/

/-- A throw behaviour under which no callback ever throws. -/
def thF : Nat → JSVal → Bool := fun _ _ => false

/-- A throw behaviour under which exactly the callback with identity 1
throws. -/
def thT : Nat → JSVal → Bool := fun n _ => n == 1

def cbA : Callback := ⟨1, "cbA"⟩

def cbB : Callback := ⟨2, "cbB"⟩

/-!  ## The claims -/

/-- C1. When a cache snapshot holding data exists for the id and a listener
is supplied, `get` invokes the listener synchronously with the cached value
(the whole snapshot data when the type is the root type, else the named
segment), as the very first event of the entire call -- before the
composition event, before any registration, and before any canonical
broadcast; moreover the synchronous phase of `get` contains no canonical
delivery at all, so the listener cannot observe the fresh value before the
cached one. -/
theorem get_stale_then_fresh (th : Nat → JSVal → Bool) (st : GState) (type id : String)
    (cb : Callback) (s : StoreEntry) (d : JSVal)
    (hc : lookupStr st.cache id = some s) (hd : s.dataField = some d) :
    ((getSync th st type id (some cb)).2 ++
        (runAll th (getSync th st type id (some cb)).1).2).head? =
      some (if th cb.cbId (if type = "user" then d else getField d type)
            then Event.cachedThrew cb (if type = "user" then d else getField d type)
            else Event.cached cb (if type = "user" then d else getField d type)) ∧
    ∀ c v, Event.deliver c v ∉ (getSync th st type id (some cb)).2 ∧
           Event.deliverThrew c v ∉ (getSync th st type id (some cb)).2 := by
  have hbc : broadcastCachedData th (lookupStr st.cache id) type (some cb) =
      [if th cb.cbId (if type = "user" then d else getField d type)
       then Event.cachedThrew cb (if type = "user" then d else getField d type)
       else Event.cached cb (if type = "user" then d else getField d type)] := by
    rw [hc]
    simp only [broadcastCachedData, hd]
    split <;> split <;> rfl
  constructor
  · rcases hst : lookupStr st.stores id with _ | e <;>
      simp [getSync, hbc, hst]
  · intro c v
    by_cases hth : th cb.cbId (if type = "user" then d else getField d type) <;>
      rcases hst : lookupStr st.stores id with _ | e <;>
        simp [getSync, hbc, hst, hth]

def wEntC1 : StoreEntry := ⟨"u1", some (.objV [("wishlist", .numV 7)]), []⟩

def wStC1 : GState := ⟨[], [("u1", wEntC1)], []⟩

theorem get_stale_then_fresh_witness :
    lookupStr wStC1.cache "u1" = some wEntC1 ∧
    wEntC1.dataField = some (.objV [("wishlist", .numV 7)]) ∧
    (((getSync thF wStC1 "wishlist" "u1" (some cbA)).2 ++
        (runAll thF (getSync thF wStC1 "wishlist" "u1" (some cbA)).1).2).head? =
      some (if thF cbA.cbId
              (if "wishlist" = "user" then JSVal.objV [("wishlist", .numV 7)]
               else getField (.objV [("wishlist", .numV 7)]) "wishlist")
            then Event.cachedThrew cbA
              (if "wishlist" = "user" then JSVal.objV [("wishlist", .numV 7)]
               else getField (.objV [("wishlist", .numV 7)]) "wishlist")
            else Event.cached cbA
              (if "wishlist" = "user" then JSVal.objV [("wishlist", .numV 7)]
               else getField (.objV [("wishlist", .numV 7)]) "wishlist")) ∧
     ∀ c v, Event.deliver c v ∉ (getSync thF wStC1 "wishlist" "u1" (some cbA)).2 ∧
            Event.deliverThrew c v ∉ (getSync thF wStC1 "wishlist" "u1" (some cbA)).2) :=
  ⟨rfl, rfl,
   get_stale_then_fresh thF wStC1 "wishlist" "u1" cbA wEntC1
     (.objV [("wishlist", .numV 7)]) rfl rfl⟩

/-- C5 counterexample. In global-update mode there is no try/catch: with two
listeners of the broadcast type on one entry, the first of which throws, the
throw aborts the loop -- the second listener is never invoked, contradicting
the claim that a throwing callback is caught in both modes and does not
prevent delivery to the remaining listeners. -/
theorem broadcast_throw_global_cex :
    globalGo thT "followers" (.objV [("followers", .numV 1)])
        [⟨"followers", cbA⟩, ⟨"followers", cbB⟩] =
      ([Event.deliverThrew cbA (.numV 1)], true) ∧
    hasDeliverTo 2 (globalGo thT "followers" (.objV [("followers", .numV 1)])
        [⟨"followers", cbA⟩, ⟨"followers", cbB⟩]).1 = false := by
  constructor <;> rfl

/-- C5 (amended). In default (local) mode a throwing listener callback is
caught and logged: every listener of the broadcast type is still invoked,
in registration order, and the trace has exactly one event per matching
listener.  In global-update mode, however, a throwing callback is not
caught: the loop stops at the throwing listener and nothing is delivered to
any remaining listener; the exception propagates out of the broadcast.  In
neither mode does the broadcast itself modify the entry data (it only reads
it to build the delivered values). -/
theorem broadcast_throw_isolation (th : Nat → JSVal → Bool) (type : String) (d : JSVal) :
    (∀ ls : List Listener,
      (broadcastLocal th type d ls).length =
          (ls.filter (fun l => l.type = type)).length ∧
      ∀ l ∈ ls, l.type = type →
        Event.deliver l.callback (jsOr (getField d type) d) ∈ broadcastLocal th type d ls ∨
        Event.deliverThrew l.callback (jsOr (getField d type) d) ∈ broadcastLocal th type d ls) ∧
    (∀ (l : Listener) (rest : List Listener),
      (l.type = "user" ∨ l.type = type) →
      th l.callback.cbId (jsOr (getField d l.type) d) = true →
      globalGo th type d (l :: rest) =
        ([Event.deliverThrew l.callback (jsOr (getField d l.type) d)], true)) := by
  constructor
  · intro ls
    constructor
    · simp [broadcastLocal]
    · intro l hl hlt
      exact broadcastLocal_mem th type d hl hlt
  · intro l rest hm hth
    simp only [globalGo, hm, if_true, hth]

theorem broadcast_throw_isolation_witness :
    ((("followers" : String) = "user" ∨ ("followers" : String) = "followers") ∧
      thT cbA.cbId
        (jsOr (getField (.objV [("followers", .numV 1)]) "followers")
          (.objV [("followers", .numV 1)])) = true) ∧
    globalGo thT "followers" (.objV [("followers", .numV 1)])
        (⟨"followers", cbA⟩ :: [⟨"followers", cbB⟩]) =
      ([Event.deliverThrew cbA
          (jsOr (getField (.objV [("followers", .numV 1)]) "followers")
            (.objV [("followers", .numV 1)]))], true) :=
  ⟨⟨Or.inr rfl, rfl⟩,
   (broadcast_throw_isolation thT "followers" (.objV [("followers", .numV 1)])).2
     ⟨"followers", cbA⟩ [⟨"followers", cbB⟩] (Or.inr rfl) rfl⟩

def stC6 : GState := ⟨[("u1", ⟨"u1", some (.objV []), []⟩)], [], []⟩

/-- C6 counterexample. A rejected Query Layer call does not propagate to the
caller of `update`: the source `update` never returns the promise chain, so
its result is undefined, not a rejected result -- the rejection is an
unhandled rejection of the discarded chain. -/
theorem update_rejection_cex :
    (update thF stC6 "followers" "u1" ⟨"increment", .objV [], none⟩ none
        (.error "boom")).ret ≠ UpdateRet.rejected "boom" ∧
    (update thF stC6 "followers" "u1" ⟨"increment", .objV [], none⟩ none
        (.error "boom")).unhandled = some "boom" := by
  constructor
  · intro h
    exact UpdateRet.noConfusion h
  · rfl

/-- C6 (amended). When the Query Layer call bound to the type rejects, no
merge is performed (both the store table and the cache are exactly as before
the update), nothing is broadcast or persisted and no callback runs, the
service is invoked exactly once (no retry) -- but the rejection does not
reach the caller as a rejected result of `update`: `update` returns
undefined and the rejection is left unhandled. -/
theorem update_rejection_no_merge (th : Nat → JSVal → Bool) (st : GState)
    (type userId : String) (payload : UpdatePayload) (callback : Option Callback)
    (err : String) (s : StoreEntry)
    (hs : lookupStr st.stores userId = some s) (ht : st.tasks = []) :
    (update th st type userId payload callback (.error err)).state.stores = st.stores ∧
    (update th st type userId payload callback (.error err)).state.cache = st.cache ∧
    (update th st type userId payload callback (.error err)).events =
      [Event.serviceCall type payload.method] ∧
    (update th st type userId payload callback (.error err)).ret = .undefRet ∧
    (update th st type userId payload callback (.error err)).unhandled = some err := by
  rw [update_error_eq th st type userId payload callback err s hs ht]
  exact ⟨rfl, rfl, rfl, rfl, rfl⟩

theorem update_rejection_no_merge_witness :
    (lookupStr stC6.stores "u1" = some ⟨"u1", some (.objV []), []⟩ ∧
      stC6.tasks = []) ∧
    ((update thF stC6 "wishlist" "u1" ⟨"add", .objV [], none⟩ none
        (.error "down")).state.stores = stC6.stores ∧
     (update thF stC6 "wishlist" "u1" ⟨"add", .objV [], none⟩ none
        (.error "down")).state.cache = stC6.cache ∧
     (update thF stC6 "wishlist" "u1" ⟨"add", .objV [], none⟩ none
        (.error "down")).events = [Event.serviceCall "wishlist" "add"] ∧
     (update thF stC6 "wishlist" "u1" ⟨"add", .objV [], none⟩ none
        (.error "down")).ret = .undefRet ∧
     (update thF stC6 "wishlist" "u1" ⟨"add", .objV [], none⟩ none
        (.error "down")).unhandled = some "down") :=
  ⟨⟨rfl, rfl⟩,
   update_rejection_no_merge thF stC6 "wishlist" "u1" ⟨"add", .objV [], none⟩ none
     "down" ⟨"u1", some (.objV []), []⟩ rfl rfl⟩

/-- C9 counterexample. In the factory implementation (src/index.js) a
first-reference `get` with the listener omitted is not reported as an error
at all, synchronously or otherwise: the `Store` constructor has no listener
check, so the call silently creates the entry, composes it and persists it.
This contradicts the claim that omission is reported immediately and
synchronously for every externally-initiated first-reference `get`. -/
theorem get_missing_listener_silent_cex :
    (getSync thF ⟨[], [], []⟩ "wishlist" "u1" none).2 = [Event.compose "u1"] ∧
    runAll thF (getSync thF ⟨[], [], []⟩ "wishlist" "u1" none).1 =
      (⟨[("u1", ⟨"u1", some composedUserData, []⟩)],
        [("u1", ⟨"u1", some composedUserData, []⟩)], []⟩,
       [Event.persist "u1"]) := by
  constructor <;> rfl

/-- C9 (amended). Only the prototype (src/unnamed/part_000) reports a
missing listener: its `Store` constructor throws a SyntaxError immediately
and synchronously when a first-reference `get` omits the listener.  The
factory implementation (src/index.js) accepts the omission silently -- the
entry is still created, composed with an empty listener collection and
persisted.  In both versions the internal entry resolution performed by
`update` requires no listener: the prototype `update` succeeds without one
on an existing entry, and the factory `get` without a listener resolves the
entry fully. -/
theorem missing_listener_proto_vs_factory
    (serverData : JSVal) (stores0 stores1 : List (String × P0Entry))
    (t i : String) (v : JSVal) (e0 : P0Entry)
    (hmiss : lookupStr stores0 i = none)
    (hsome : lookupStr stores1 i = some e0)
    (th : Nat → JSVal → Bool) (st : GState)
    (hfac : lookupStr st.stores i = none) (htk : st.tasks = []) :
    p0get serverData stores0 t i none = .error "A new store requires a listener!" ∧
    (∃ stores2, p0update serverData stores1 t i v = .ok stores2) ∧
    lookupStr (runAll th (getSync th st t i none).1).1.stores i =
      some ⟨i, some composedUserData, []⟩ := by
  refine ⟨?_, ?_, ?_⟩
  · simp only [p0get, hmiss, p0StoreNew]
  · simp only [p0update, p0get, hsome]
    exact ⟨_, rfl⟩
  · have hbc : broadcastCachedData th (lookupStr st.cache i) t none = [] :=
      broadcastCachedData_none_listener th _ t
    simp only [getSync, hbc, hfac, htk, List.nil_append, runAll, runTaskList,
      runTask, lookupStr_insertStr_self]

theorem missing_listener_proto_vs_factory_witness :
    (lookupStr ([] : List (String × P0Entry)) "u1" = none ∧
      lookupStr [("u1", (⟨"u1", some (.objV []), []⟩ : P0Entry))] "u1" =
        some ⟨"u1", some (.objV []), []⟩ ∧
      lookupStr (⟨[], [], []⟩ : GState).stores "u1" = none ∧
      (⟨[], [], []⟩ : GState).tasks = []) ∧
    (p0get (p0ServerData "u1" 3 4) [] "wishlist" "u1" none =
        .error "A new store requires a listener!" ∧
     (∃ stores2, p0update (p0ServerData "u1" 3 4)
        [("u1", ⟨"u1", some (.objV []), []⟩)] "wishlist" "u1" (.numV 9) =
          .ok stores2) ∧
     lookupStr (runAll thF (getSync thF ⟨[], [], []⟩ "wishlist" "u1" none).1).1.stores
        "u1" = some ⟨"u1", some composedUserData, []⟩) :=
  ⟨⟨rfl, rfl, rfl, rfl⟩,
   missing_listener_proto_vs_factory (p0ServerData "u1" 3 4) []
     [("u1", ⟨"u1", some (.objV []), []⟩)] "wishlist" "u1" (.numV 9)
     ⟨"u1", some (.objV []), []⟩ rfl rfl thF ⟨[], [], []⟩ rfl rfl⟩

/-- C10. In both broadcast modes delivery uses the fallback expression
`data[type] || data`: a listener subscribed to a non-root segment whose
current value in the entry data is falsy (undefined, 0, empty string, null
or false) receives the entire entity data object instead of the segment
value; the segment value itself is delivered exactly when it is truthy. -/
theorem broadcast_falsy_fallback (th : Nat → JSVal → Bool) (type : String) (d : JSVal)
    (hroot : type ≠ "user") :
    (truthy (getField d type) = false →
      ∀ ls : List Listener, ∀ ev ∈ broadcastLocal th type d ls,
        ∃ cb, ev = Event.deliver cb d ∨ ev = Event.deliverThrew cb d) ∧
    (truthy (getField d type) = true →
      ∀ ls : List Listener, ∀ ev ∈ broadcastLocal th type d ls,
        ∃ cb, ev = Event.deliver cb (getField d type) ∨
              ev = Event.deliverThrew cb (getField d type)) ∧
    (truthy (getField d type) = false →
      ∀ ls : List Listener, ∀ l ∈ ls, l.type = type → (∀ n w, th n w = false) →
        Event.deliver l.callback d ∈ (globalGo th type d ls).1) := by
  refine ⟨?_, ?_, ?_⟩
  · intro hfalsy ls ev hev
    obtain ⟨l, _, _, hshape⟩ := mem_broadcastLocal th type d ls ev hev
    rw [jsOr, if_neg (by simp [hfalsy])] at hshape
    exact ⟨l.callback, hshape⟩
  · intro htruthy ls ev hev
    obtain ⟨l, _, _, hshape⟩ := mem_broadcastLocal th type d ls ev hev
    rw [jsOr, if_pos htruthy] at hshape
    exact ⟨l.callback, hshape⟩
  · intro hfalsy ls l hl hlt hth
    have := (globalGo_total th hth type d ls).2 l hl (Or.inr hlt)
    rwa [hlt, jsOr, if_neg (by simp [hfalsy])] at this

theorem broadcast_falsy_fallback_witness :
    (("followers" : String) ≠ "user" ∧
      truthy (getField (.objV [("followers", .numV 0)]) "followers") = false) ∧
    ∀ ev ∈ broadcastLocal thF "followers" (.objV [("followers", .numV 0)])
        [⟨"followers", cbA⟩],
      ∃ cb, ev = Event.deliver cb (.objV [("followers", .numV 0)]) ∨
            ev = Event.deliverThrew cb (.objV [("followers", .numV 0)]) :=
  ⟨⟨by decide, rfl⟩,
   (broadcast_falsy_fallback thF "followers" (.objV [("followers", .numV 0)])
      (by decide)).1 rfl [⟨"followers", cbA⟩]⟩

/-!  ## Event-counting helpers -/

theorem countP_cached_zero {p : Event → Bool}
    (hp : ∀ cb v, p (.cached cb v) = false ∧ p (.cachedThrew cb v) = false)
    (th : Nat → JSVal → Bool) (c : Option StoreEntry) (type : String)
    (listener : Option Callback) :
    (broadcastCachedData th c type listener).countP p = 0 := by
  rw [List.countP_eq_zero]
  intro ev hev
  obtain ⟨cb, v, h1 | h1⟩ := broadcastCachedData_shape th c type listener ev hev <;>
    subst h1 <;> simp [(hp cb v).1, (hp cb v).2]

theorem countP_local_zero {p : Event → Bool}
    (hp : ∀ cb v, p (.deliver cb v) = false ∧ p (.deliverThrew cb v) = false)
    (th : Nat → JSVal → Bool) (type : String) (d : JSVal) (ls : List Listener) :
    (broadcastLocal th type d ls).countP p = 0 := by
  rw [List.countP_eq_zero]
  intro ev hev
  obtain ⟨l, _, _, h1 | h1⟩ := mem_broadcastLocal th type d ls ev hev <;>
    subst h1 <;> simp [(hp _ _).1, (hp _ _).2]

theorem countP_global_zero {p : Event → Bool}
    (hp : ∀ cb v, p (.deliver cb v) = false ∧ p (.deliverThrew cb v) = false)
    (th : Nat → JSVal → Bool) (type : String) (stores : List (String × StoreEntry)) :
    (broadcastGlobal th type stores).1.countP p = 0 := by
  rw [List.countP_eq_zero]
  intro ev hev
  obtain ⟨q, _, l, _, _, h1 | h1⟩ := mem_broadcastGlobal th type stores ev hev <;>
    subst h1 <;> simp [(hp _ _).1, (hp _ _).2]

theorem patchToStore_nil (t : String) (cb : Callback) :
    patchToStore t cb [] = [⟨t, cb⟩] := rfl

/-- C3. On a listener collection maintained by `patchToStore` (so one in
which no two listeners share a callback text), a registration leaves no two
listeners with both the same segment type and the same callback text;
registering a listener whose callback text matches an existing one removes
the old record and appends the new one at the end (replace-on-reattach), so
in any subsequent broadcast every delivery to a callback with that text goes
to the newest callback instance. -/
theorem patch_dedup (ls : List Listener) (h : UniqTexts ls) (t : String) (cb : Callback) :
    (patchToStore t cb ls).Pairwise
        (fun a b => ¬(a.type = b.type ∧ a.callback.text = b.callback.text)) ∧
    patchToStore t cb ls = ls.filter (keepText cb.text) ++ [⟨t, cb⟩] ∧
    (∀ (th : Nat → JSVal → Bool) (t2 : String) (d : JSVal) (ev : Event),
      ev ∈ broadcastLocal th t2 d (patchToStore t cb ls) →
      ∀ cb2 v, (ev = Event.deliver cb2 v ∨ ev = Event.deliverThrew cb2 v) →
        cb2.text = cb.text → cb2 = cb) := by
  refine ⟨(uniqTexts_patchToStore h t cb).imp (fun hne hand => hne hand.2),
    patchToStore_eq_filter h t cb, ?_⟩
  intro th t2 d ev hev cb2 v hshape htext
  obtain ⟨l, hl, _, hform⟩ := mem_broadcastLocal th t2 d _ ev hev
  have hcb2 : cb2 = l.callback := by
    rcases hshape with h1 | h1 <;> rcases hform with h2 | h2 <;> rw [h1] at h2 <;>
      injection h2
  rw [patchToStore_eq_filter h t cb] at hl
  rcases List.mem_append.mp hl with hfil | hnew
  · exact absurd (hcb2 ▸ htext) (by simpa [keepText] using List.of_mem_filter hfil)
  · rw [List.mem_singleton] at hnew
    rw [hcb2, hnew]

theorem patch_dedup_witness :
    UniqTexts [⟨"wishlist", cbA⟩] ∧
    ((patchToStore "followers" ⟨3, "cbA"⟩ [⟨"wishlist", cbA⟩]).Pairwise
        (fun a b => ¬(a.type = b.type ∧ a.callback.text = b.callback.text)) ∧
     patchToStore "followers" ⟨3, "cbA"⟩ [⟨"wishlist", cbA⟩] =
       List.filter (keepText (Callback.text ⟨3, "cbA"⟩)) [⟨"wishlist", cbA⟩] ++
         [⟨"followers", ⟨3, "cbA"⟩⟩] ∧
     (∀ (th : Nat → JSVal → Bool) (t2 : String) (d : JSVal) (ev : Event),
       ev ∈ broadcastLocal th t2 d (patchToStore "followers" ⟨3, "cbA"⟩ [⟨"wishlist", cbA⟩]) →
       ∀ cb2 v, (ev = Event.deliver cb2 v ∨ ev = Event.deliverThrew cb2 v) →
         cb2.text = Callback.text ⟨3, "cbA"⟩ → cb2 = ⟨3, "cbA"⟩)) :=
  ⟨List.pairwise_singleton _ _,
   patch_dedup [⟨"wishlist", cbA⟩] (List.pairwise_singleton _ _) "followers" ⟨3, "cbA"⟩⟩

def stC4 : GState :=
  ⟨[("u1", ⟨"u1", some (.objV []), [⟨"followers", cbA⟩]⟩),
    ("u2", ⟨"u2", some (.objV []), [⟨"followers", cbB⟩]⟩)], [], []⟩

/-- C4 counterexample. An update without a foreign id broadcasts with
`broadcast(type, true)` -- global-update mode, not local mode: here an
update of entity u1 delivers to the listener registered on the unrelated
entity u2 (the second conjunct pins that listener to the u2 entry),
contradicting the claim that only listeners on the updated entity with the
updated type are invoked. -/
theorem update_no_cascade_local_cex :
    Event.deliver cbB (.objV []) ∈
      (update thF stC4 "followers" "u1" ⟨"increment", .objV [], none⟩ none
        (.ok (.numV 42))).events ∧
    (lookupStr stC4.stores "u2").map StoreEntry.listeners =
      some [⟨"followers", cbB⟩] := by
  constructor
  · have hev : (update thF stC4 "followers" "u1" ⟨"increment", .objV [], none⟩ none
        (.ok (.numV 42))).events =
        [Event.serviceCall "followers" "increment",
         Event.deliver cbA (.numV 42),
         Event.deliver cbB (.objV []),
         Event.persist "u1"] := rfl
    rw [hev]
    simp
  · rfl

/-- C4 (corrected). An update whose payload names no foreign entity merges
the Query Layer result, then broadcasts in global-update mode: every
listener on every Store Entry whose type equals the updated type or the
root type `user` is invoked -- including listeners registered on other
entities -- after which the updated entry is persisted and the optional
callback runs exactly once; `update` itself returns undefined. -/
theorem update_no_cascade_broadcast_global (th : Nat → JSVal → Bool) (st : GState)
    (type userId : String) (payload : UpdatePayload) (callback : Option Callback)
    (result : JSVal) (s : StoreEntry)
    (hth : ∀ n w, th n w = false)
    (hs : lookupStr st.stores userId = some s) (ht : st.tasks = [])
    (hf : payload.foreignUserId = none) :
    (update th st type userId payload callback (.ok result)).state.stores =
        insertStr st.stores userId (mergedEntry type result s) ∧
    (∀ p ∈ insertStr st.stores userId (mergedEntry type result s),
        ∀ l ∈ p.2.listeners, (l.type = "user" ∨ l.type = type) →
          ∃ v, Event.deliver l.callback v ∈
            (update th st type userId payload callback (.ok result)).events) ∧
    (update th st type userId payload callback (.ok result)).state.cache =
        setLocalStorage st.cache (mergedEntry type result s) ∧
    Event.persist s.id ∈
        (update th st type userId payload callback (.ok result)).events ∧
    (update th st type userId payload callback (.ok result)).events.countP
        isCallbackDoneEv = (if callback.isSome then 1 else 0) ∧
    (update th st type userId payload callback (.ok result)).ret = .undefRet := by
  have hab : (broadcastGlobal th type
      (insertStr st.stores userId (mergedEntry type result s))).2 = false :=
    (broadcastGlobal_total th hth type _).1
  rw [update_no_cascade_eq th st type userId payload callback result s hs ht hf hab]
  refine ⟨rfl, ?_, rfl, ?_, ?_, rfl⟩
  · intro p hp l hl hm
    exact ⟨_, List.mem_append_left _ (List.mem_append_left _ (List.mem_append_right _
      ((broadcastGlobal_total th hth type _).2 p hp l hl hm)))⟩
  · exact List.mem_append_left _ (List.mem_append_right _ (List.mem_singleton_self _))
  · have hg : (broadcastGlobal th type
        (insertStr st.stores userId (mergedEntry type result s))).1.countP
        isCallbackDoneEv = 0 :=
      countP_global_zero (fun cb v => ⟨rfl, rfl⟩) th type _
    cases callback <;>
      simp [List.countP_append, hg, isCallbackDoneEv, List.countP_cons]

theorem update_no_cascade_broadcast_global_witness :
    ((∀ n w, thF n w = false) ∧
      lookupStr stC4.stores "u1" = some ⟨"u1", some (.objV []), [⟨"followers", cbA⟩]⟩ ∧
      stC4.tasks = [] ∧
      (UpdatePayload.foreignUserId ⟨"increment", .objV [], none⟩) = none) ∧
    ∀ p ∈ insertStr stC4.stores "u1"
        (mergedEntry "followers" (.numV 42) ⟨"u1", some (.objV []), [⟨"followers", cbA⟩]⟩),
      ∀ l ∈ p.2.listeners, (l.type = "user" ∨ l.type = "followers") →
        ∃ v, Event.deliver l.callback v ∈
          (update thF stC4 "followers" "u1" ⟨"increment", .objV [], none⟩ none
            (.ok (.numV 42))).events :=
  ⟨⟨fun _ _ => rfl, rfl, rfl, rfl⟩,
   (update_no_cascade_broadcast_global thF stC4 "followers" "u1"
      ⟨"increment", .objV [], none⟩ none (.numV 42)
      ⟨"u1", some (.objV []), [⟨"followers", cbA⟩]⟩
      (fun _ _ => rfl) rfl rfl rfl).2.1⟩

/-!  ## Merge-step lemmas (C7) -/

theorem getField_setField_self (fs : List (String × JSVal)) (k : String) (v : JSVal) :
    getField (setField (.objV fs) k v) k = v := by
  simp [setField, getField, lookupStr_insertStr_self]

theorem getField_setField_ne (fs : List (String × JSVal)) {k k2 : String} (v : JSVal)
    (h : k2 ≠ k) : getField (setField (.objV fs) k v) k2 = getField (.objV fs) k2 := by
  simp [setField, getField, lookupStr_insertStr_ne _ _ h]

theorem mergeUserFields_cons (d : JSVal) (kv : String × JSVal)
    (r : List (String × JSVal)) :
    mergeUserFields d (kv :: r) =
      mergeUserFields (if hasDollar kv.1 then d else setField d kv.1 kv.2) r := rfl

/-- Fields with the reserved character anywhere in the name are never
written, so such a field keeps its previous value. -/
theorem mergeUserFields_getField_dollar (fs : List (String × JSVal)) (k : String)
    (hk : hasDollar k = true) :
    ∀ fs0, getField (mergeUserFields (.objV fs0) fs) k = getField (.objV fs0) k := by
  induction fs with
  | nil => intro fs0; rfl
  | cons kv rest ih =>
    intro fs0
    rw [mergeUserFields_cons]
    by_cases hd : hasDollar kv.1
    · rw [if_pos hd]
      exact ih fs0
    · rw [if_neg hd]
      have hne : k ≠ kv.1 := fun he => hd (he ▸ hk)
      calc getField (mergeUserFields (setField (.objV fs0) kv.1 kv.2) rest) k
          = getField (.objV (insertStr fs0 kv.1 kv.2)) k := by
            rw [show setField (.objV fs0) kv.1 kv.2 = .objV (insertStr fs0 kv.1 kv.2)
              from rfl]
            exact ih _
        _ = getField (.objV fs0) k := by
            simpa [setField] using getField_setField_ne fs0 kv.2 hne

/-- A key that occurs in none of the fields keeps its previous value. -/
theorem mergeUserFields_getField_absent (fs : List (String × JSVal)) (k : String)
    (hn : ∀ kv ∈ fs, kv.1 ≠ k) :
    ∀ fs0, getField (mergeUserFields (.objV fs0) fs) k = getField (.objV fs0) k := by
  induction fs with
  | nil => intro fs0; rfl
  | cons kv rest ih =>
    intro fs0
    rw [mergeUserFields_cons]
    have hrest : ∀ kv2 ∈ rest, kv2.1 ≠ k := fun kv2 h2 => hn kv2 (List.mem_cons_of_mem _ h2)
    by_cases hd : hasDollar kv.1
    · rw [if_pos hd]
      exact ih hrest fs0
    · rw [if_neg hd]
      have hne : k ≠ kv.1 := fun he => (hn kv (List.mem_cons_self _ _)) he.symm
      calc getField (mergeUserFields (setField (.objV fs0) kv.1 kv.2) rest) k
          = getField (.objV (insertStr fs0 kv.1 kv.2)) k := by
            rw [show setField (.objV fs0) kv.1 kv.2 = .objV (insertStr fs0 kv.1 kv.2)
              from rfl]
            exact ih hrest _
        _ = getField (.objV fs0) k := by
            simpa [setField] using getField_setField_ne fs0 kv.2 hne

/-- A field whose name contains no reserved character is copied: after the
merge the entry data holds its value (keys assumed distinct, as they are on
a JavaScript object). -/
theorem mergeUserFields_getField_copied (fs : List (String × JSVal)) (k : String)
    (v : JSVal) (hnod : (fs.map Prod.fst).Nodup) (hmem : (k, v) ∈ fs)
    (hk : hasDollar k = false) :
    ∀ fs0, getField (mergeUserFields (.objV fs0) fs) k = v := by
  induction fs with
  | nil => simp at hmem
  | cons kv rest ih =>
    intro fs0
    rw [List.map_cons, List.nodup_cons] at hnod
    rw [mergeUserFields_cons]
    rcases List.mem_cons.mp hmem with heq | hmem2
    · have hk1 : kv.1 = k := by rw [← heq]
      have hv1 : kv.2 = v := by rw [← heq]
      rw [hk1, hv1, if_neg (by simp [hk])]
      have hrest : ∀ kv2 ∈ rest, kv2.1 ≠ k := by
        intro kv2 h2 he
        apply hnod.1
        rw [hk1, ← he]
        exact List.mem_map_of_mem Prod.fst h2
      calc getField (mergeUserFields (setField (.objV fs0) k v) rest) k
          = getField (setField (.objV fs0) k v) k := by
            rw [show setField (.objV fs0) k v = .objV (insertStr fs0 k v) from rfl]
            exact mergeUserFields_getField_absent rest k hrest _
        _ = v := getField_setField_self fs0 k v
    · by_cases hd : hasDollar kv.1
      · rw [if_pos hd]
        exact ih hnod.2 hmem2 fs0
      · rw [if_neg hd]
        rw [show setField (.objV fs0) kv.1 kv.2 = .objV (insertStr fs0 kv.1 kv.2)
          from rfl]
        exact ih hnod.2 hmem2 _

def stC7 : GState := ⟨[("u1", ⟨"u1", some (.objV []), []⟩)], [], []⟩

/-- C7 counterexample. The source skips every result field whose name
contains the dollar sign anywhere -- `key.indexOf handles containment, not
a prefix test.  The field named a-dollar-b carries no dollar prefix, so by
the claim it should be copied into the entry data; the code leaves it
absent (reading it back gives undefined, not 5). -/
theorem update_merge_dollar_cex :
    (lookupStr (update thF stC7 "user" "u1" ⟨"set", .objV [], none⟩ none
        (.ok (.objV [("a$b", .numV 5)]))).state.stores "u1").map
      (fun e => getField (dataOf e) "a$b") = some JSVal.undefV ∧
    JSVal.undefV ≠ JSVal.numV 5 := by
  constructor
  · rfl
  · intro h
    exact JSVal.noConfusion h

/-- C7 (amended). For a successful update: when the type is the root segment
`user`, exactly the fields of the returned object whose names contain no
dollar sign anywhere are copied into the entry data -- a field with a dollar
anywhere in its name (not only as a prefix) is skipped and the previous
value of that key is kept; for any other type the entire returned value is
assigned to the named segment, so a service returning 42 for type
`followers` yields entry data with followers = 42 and a global-update
broadcast delivering 42 to the followers-type listeners on that entity. -/
theorem update_merge_semantics :
    (∀ (fs0 fs : List (String × JSVal)) (k : String) (v : JSVal),
      (fs.map Prod.fst).Nodup → (k, v) ∈ fs → hasDollar k = false →
      getField (mergeResult "user" (.objV fs0) (.objV fs)) k = v) ∧
    (∀ (fs0 fs : List (String × JSVal)) (k : String),
      hasDollar k = true →
      getField (mergeResult "user" (.objV fs0) (.objV fs)) k =
        getField (.objV fs0) k) ∧
    (∀ (type : String) (d result : JSVal), type ≠ "user" →
      mergeResult type d result = setField d type result) ∧
    (∀ (st : GState) (userId : String) (s : StoreEntry) (fs0 : List (String × JSVal))
        (cb : Callback) (payload : UpdatePayload),
      lookupStr st.stores userId = some s → st.tasks = [] →
      payload.foreignUserId = none →
      s.dataField = some (.objV fs0) → ⟨"followers", cb⟩ ∈ s.listeners →
      getField (dataOf (mergedEntry "followers" (.numV 42) s)) "followers" =
          .numV 42 ∧
      Event.deliver cb (.numV 42) ∈
        (update thF st "followers" userId payload none (.ok (.numV 42))).events) := by
  refine ⟨?_, ?_, ?_, ?_⟩
  · intro fs0 fs k v hnod hmem hk
    simpa [mergeResult, fieldsOf] using
      mergeUserFields_getField_copied fs k v hnod hmem hk fs0
  · intro fs0 fs k hk
    simpa [mergeResult, fieldsOf] using mergeUserFields_getField_dollar fs k hk fs0
  · intro type d result htype
    simp [mergeResult, htype]
  · intro st userId s fs0 cb payload hs ht hf hd hmem
    have hdataM : dataOf (mergedEntry "followers" (.numV 42) s) =
        setField (.objV fs0) "followers" (.numV 42) := by
      simp [mergedEntry, dataOf, mergeResult, hd]
    have hfield : getField (dataOf (mergedEntry "followers" (.numV 42) s)) "followers" =
        .numV 42 := by
      rw [hdataM]
      exact getField_setField_self fs0 "followers" (.numV 42)
    refine ⟨hfield, ?_⟩
    have hab : (broadcastGlobal thF "followers"
        (insertStr st.stores userId (mergedEntry "followers" (.numV 42) s))).2 = false :=
      (broadcastGlobal_total thF (fun _ _ => rfl) "followers" _).1
    rw [update_no_cascade_eq thF st "followers" userId payload none (.numV 42) s
      hs ht hf hab]
    have hmm := (broadcastGlobal_total thF (fun _ _ => rfl) "followers"
        (insertStr st.stores userId (mergedEntry "followers" (.numV 42) s))).2
      (userId, mergedEntry "followers" (.numV 42) s)
      (mem_insertStr_self _ _ _) ⟨"followers", cb⟩ hmem (Or.inr rfl)
    have hval : jsOr (getField (dataOf (mergedEntry "followers" (.numV 42) s)) "followers")
        (dataOf (mergedEntry "followers" (.numV 42) s)) = .numV 42 := by
      rw [hfield, jsOr, if_pos (by decide)]
    rw [hval] at hmm
    exact List.mem_append_left _ (List.mem_append_left _ (List.mem_append_right _ hmm))

theorem update_merge_semantics_witness :
    (([("email", JSVal.strV "x")].map Prod.fst).Nodup ∧
      ("email", JSVal.strV "x") ∈ [("email", JSVal.strV "x")] ∧
      hasDollar "email" = false) ∧
    getField (mergeResult "user" (.objV []) (.objV [("email", JSVal.strV "x")]))
      "email" = JSVal.strV "x" :=
  ⟨⟨by simp, List.mem_singleton_self _, rfl⟩,
   update_merge_semantics.1 [] [("email", JSVal.strV "x")] "email" (JSVal.strV "x")
     (by simp) (List.mem_singleton_self _) rfl⟩

/-- C2. Two `get` calls for the same previously-unseen id, the second issued
while the composition triggered by the first is still pending, cause exactly
one `composeUser` invocation for that id; both listeners are then invoked
with the same resolved data (the composed object); and exactly one Store
Entry for the id exists after the first synchronous phase and from then on
(the second call reuses it instead of creating another). -/
theorem get_single_flight (th : Nat → JSVal → Bool) (st : GState)
    (t1 t2 id : String) (cb1 cb2 : Callback)
    (st1 st2 st3 : GState) (e1 e2 e3 : List Event)
    (h0 : lookupStr st.stores id = none) (ht : st.tasks = [])
    (hg1 : getSync th st t1 id (some cb1) = (st1, e1))
    (hg2 : getSync th st1 t2 id (some cb2) = (st2, e2))
    (hr : runAll th st2 = (st3, e3)) :
    (e1 ++ e2 ++ e3).countP (isComposeFor id) = 1 ∧
    (Event.deliver cb1 composedUserData ∈ e3 ∨
     Event.deliverThrew cb1 composedUserData ∈ e3) ∧
    (Event.deliver cb2 composedUserData ∈ e3 ∨
     Event.deliverThrew cb2 composedUserData ∈ e3) ∧
    countKey st1.stores id = 1 ∧ countKey st2.stores id = 1 ∧
    countKey st3.stores id = 1 := by
  -- the first call registers the entry at once and queues the constructor
  -- continuation
  have hg1' : getSync th st t1 id (some cb1) =
      (⟨insertStr st.stores id ⟨id, none, []⟩, st.cache,
        [Task.storeResolve t1 id (some cb1)]⟩,
       broadcastCachedData th (lookupStr st.cache id) t1 (some cb1) ++
         [Event.compose id]) := by
    simp only [getSync, h0, ht, List.nil_append]
  rw [hg1', Prod.mk.injEq] at hg1
  obtain ⟨hst1, he1⟩ := hg1
  subst hst1
  subst he1
  -- the second call finds the entry and queues the existing-store
  -- continuation; no second composition starts
  have hlk1 : lookupStr (insertStr st.stores id (⟨id, none, []⟩ : StoreEntry)) id =
      some ⟨id, none, []⟩ := lookupStr_insertStr_self _ _ _
  have hg2' : getSync th ⟨insertStr st.stores id ⟨id, none, []⟩, st.cache,
        [Task.storeResolve t1 id (some cb1)]⟩ t2 id (some cb2) =
      (⟨insertStr st.stores id ⟨id, none, []⟩, st.cache,
        [Task.storeResolve t1 id (some cb1), Task.existingResolve t2 id (some cb2)]⟩,
       broadcastCachedData th (lookupStr st.cache id) t2 (some cb2)) := by
    simp only [getSync, hlk1, List.cons_append, List.nil_append]
  rw [hg2', Prod.mk.injEq] at hg2
  obtain ⟨hst2, he2⟩ := hg2
  subst hst2
  subst he2
  -- the continuations resolve in order: the constructor one sets the data,
  -- patches the first listener and broadcasts; the existing-store one
  -- patches the second listener and broadcasts
  have hlk2 : lookupStr (insertStr (insertStr st.stores id ⟨id, none, []⟩) id
      (⟨id, some composedUserData, patchToStore t1 cb1 []⟩ : StoreEntry)) id =
      some ⟨id, some composedUserData, patchToStore t1 cb1 []⟩ :=
    lookupStr_insertStr_self _ _ _
  have hr' : runAll th ⟨insertStr st.stores id ⟨id, none, []⟩, st.cache,
      [Task.storeResolve t1 id (some cb1), Task.existingResolve t2 id (some cb2)]⟩ =
      (⟨insertStr (insertStr (insertStr st.stores id ⟨id, none, []⟩) id
          ⟨id, some composedUserData, patchToStore t1 cb1 []⟩) id
          ⟨id, some composedUserData, patchToStore t2 cb2 (patchToStore t1 cb1 [])⟩,
        insertStr st.cache id ⟨id, some composedUserData, patchToStore t1 cb1 []⟩, []⟩,
       (broadcastLocal th t1 composedUserData (patchToStore t1 cb1 []) ++
          [Event.persist id]) ++
        broadcastLocal th t2 composedUserData
          (patchToStore t2 cb2 (patchToStore t1 cb1 []))) := by
    simp only [runAll, runTaskList, runTask, hlk1, hlk2, dataOf, Option.getD_some,
      setLocalStorage, List.append_nil, List.nil_append]
  rw [hr', Prod.mk.injEq] at hr
  obtain ⟨hst3, he3⟩ := hr
  subst hst3
  subst he3
  have hval1 : jsOr (getField composedUserData t1) composedUserData =
      composedUserData := rfl
  have hval2 : jsOr (getField composedUserData t2) composedUserData =
      composedUserData := rfl
  refine ⟨?_, ?_, ?_, ?_, ?_, ?_⟩
  · have hb1 : (broadcastCachedData th (lookupStr st.cache id) t1
        (some cb1)).countP (isComposeFor id) = 0 :=
      countP_cached_zero (fun cb v => ⟨rfl, rfl⟩) th _ t1 _
    have hb2 : (broadcastCachedData th (lookupStr st.cache id) t2
        (some cb2)).countP (isComposeFor id) = 0 :=
      countP_cached_zero (fun cb v => ⟨rfl, rfl⟩) th _ t2 _
    have hl1 : (broadcastLocal th t1 composedUserData
        (patchToStore t1 cb1 [])).countP (isComposeFor id) = 0 :=
      countP_local_zero (fun cb v => ⟨rfl, rfl⟩) th t1 _ _
    have hl2 : (broadcastLocal th t2 composedUserData
        (patchToStore t2 cb2 (patchToStore t1 cb1 []))).countP (isComposeFor id) = 0 :=
      countP_local_zero (fun cb v => ⟨rfl, rfl⟩) th t2 _ _
    simp [List.countP_append, hb1, hb2, hl1, hl2, List.countP_cons, isComposeFor]
  · rcases broadcastLocal_mem th t1 composedUserData
        (self_mem_patchToStore t1 cb1 []) rfl with hmem | hmem <;>
      rw [hval1] at hmem
    · exact Or.inl (List.mem_append_left _ (List.mem_append_left _ hmem))
    · exact Or.inr (List.mem_append_left _ (List.mem_append_left _ hmem))
  · rcases broadcastLocal_mem th t2 composedUserData
        (self_mem_patchToStore t2 cb2 (patchToStore t1 cb1 [])) rfl with hmem | hmem <;>
      rw [hval2] at hmem
    · exact Or.inl (List.mem_append_right _ hmem)
    · exact Or.inr (List.mem_append_right _ hmem)
  · exact countKey_insertStr_of_lookup_none _ h0
  · exact countKey_insertStr_of_lookup_none _ h0
  · rw [countKey_insertStr_of_lookup_some _ hlk2,
      countKey_insertStr_of_lookup_some _ hlk1]
    exact countKey_insertStr_of_lookup_none _ h0

def evFinC2 : List Event :=
  [Event.deliver cbA composedUserData, Event.persist "u1",
   Event.deliver cbB composedUserData]

theorem get_single_flight_witness :
    (lookupStr (⟨[], [], []⟩ : GState).stores "u1" = none ∧
      (⟨[], [], []⟩ : GState).tasks = [] ∧
      getSync thF ⟨[], [], []⟩ "wishlist" "u1" (some cbA) =
        (⟨[("u1", ⟨"u1", none, []⟩)], [],
          [Task.storeResolve "wishlist" "u1" (some cbA)]⟩, [Event.compose "u1"]) ∧
      getSync thF ⟨[("u1", ⟨"u1", none, []⟩)], [],
          [Task.storeResolve "wishlist" "u1" (some cbA)]⟩ "followers" "u1"
          (some cbB) =
        (⟨[("u1", ⟨"u1", none, []⟩)], [],
          [Task.storeResolve "wishlist" "u1" (some cbA),
           Task.existingResolve "followers" "u1" (some cbB)]⟩, []) ∧
      runAll thF ⟨[("u1", ⟨"u1", none, []⟩)], [],
          [Task.storeResolve "wishlist" "u1" (some cbA),
           Task.existingResolve "followers" "u1" (some cbB)]⟩ =
        (⟨[("u1", ⟨"u1", some composedUserData,
              [⟨"wishlist", cbA⟩, ⟨"followers", cbB⟩]⟩)],
          [("u1", ⟨"u1", some composedUserData, [⟨"wishlist", cbA⟩]⟩)], []⟩,
         evFinC2)) ∧
    ([Event.compose "u1"] ++ [] ++ evFinC2).countP (isComposeFor "u1") = 1 :=
  ⟨⟨rfl, rfl, rfl, rfl, rfl⟩,
   (get_single_flight thF ⟨[], [], []⟩ "wishlist" "followers" "u1" cbA cbB
      _ _ _ _ _ _ rfl rfl rfl rfl rfl).1⟩

/-- C8. An update whose payload names an existing distinct foreign entity
recomposes that entity exactly once, replaces the foreign Store Entry data
with the recomposed result, broadcasts in global-update mode for the updated
type (the foreign root-segment listeners receive the recomposed entity),
persists both the primary and the foreign entry, and then invokes the
one-off callback exactly once, after everything else.  (Listener deliveries
are assumed to return normally; a throwing listener is the subject of the
delivery-error claim.) -/
theorem update_cascade (th : Nat → JSVal → Bool) (st : GState)
    (type userId target : String) (payload : UpdatePayload) (cbk : Callback)
    (result : JSVal) (s f : StoreEntry) (u : UpdateResult)
    (hth : ∀ n w, th n w = false)
    (hs : lookupStr st.stores userId = some s) (ht : st.tasks = [])
    (hf : payload.foreignUserId = some target)
    (hft : lookupStr st.stores target = some f) (hne : target ≠ userId)
    (hu : update th st type userId payload (some cbk) (.ok result) = u) :
    u.events.countP (isComposeFor target) = 1 ∧
    lookupStr u.state.stores target =
      some { f with dataField := some composedUserData } ∧
    (∀ l ∈ f.listeners, l.type = "user" →
      Event.deliver l.callback composedUserData ∈ u.events) ∧
    u.state.cache =
      setLocalStorage (setLocalStorage st.cache (mergedEntry type result s))
        { f with dataField := some composedUserData } ∧
    Event.persist s.id ∈ u.events ∧ Event.persist f.id ∈ u.events ∧
    u.events.countP isCallbackDoneEv = 1 ∧
    (∃ pre, u.events = pre ++ [Event.callbackDone]) := by
  have hab : (broadcastGlobal th type
      (insertStr (insertStr st.stores userId (mergedEntry type result s)) target
        { f with dataField := some composedUserData })).2 = false :=
    (broadcastGlobal_total th hth type _).1
  subst hu
  rw [update_cascade_eq th st type userId target payload (some cbk) result s f
    hs ht hf hft hne hab]
  refine ⟨?_, lookupStr_insertStr_self _ _ _, ?_, rfl, ?_, ?_, ?_, ?_⟩
  · have hg : (broadcastGlobal th type
        (insertStr (insertStr st.stores userId (mergedEntry type result s)) target
          { f with dataField := some composedUserData })).1.countP
        (isComposeFor target) = 0 :=
      countP_global_zero (fun cb v => ⟨rfl, rfl⟩) th type _
    simp [List.countP_append, hg, List.countP_cons, isComposeFor]
  · intro l hl hlt
    have hmm := (broadcastGlobal_total th hth type
        (insertStr (insertStr st.stores userId (mergedEntry type result s)) target
          { f with dataField := some composedUserData })).2
      (target, { f with dataField := some composedUserData })
      (mem_insertStr_self _ _ _) l hl (Or.inl hlt)
    have hval : jsOr (getField (dataOf
        ({ f with dataField := some composedUserData } : StoreEntry)) l.type)
        (dataOf ({ f with dataField := some composedUserData } : StoreEntry)) =
        composedUserData := by
      rw [hlt]
      rfl
    rw [hval] at hmm
    exact List.mem_append_left _ (List.mem_append_left _ (List.mem_append_right _ hmm))
  · exact List.mem_append_left _ (List.mem_append_right _ (List.mem_cons_self _ _))
  · exact List.mem_append_left _ (List.mem_append_right _
      (List.mem_cons_of_mem _ (List.mem_singleton_self _)))
  · have hg : (broadcastGlobal th type
        (insertStr (insertStr st.stores userId (mergedEntry type result s)) target
          { f with dataField := some composedUserData })).1.countP
        isCallbackDoneEv = 0 :=
      countP_global_zero (fun cb v => ⟨rfl, rfl⟩) th type _
    simp [List.countP_append, hg, List.countP_cons, isCallbackDoneEv]
  · exact ⟨_, rfl⟩

def stC8 : GState :=
  ⟨[("u1", ⟨"u1", some (.objV []), []⟩),
    ("u2", ⟨"u2", some (.objV []), [⟨"user", cbB⟩]⟩)], [], []⟩

theorem update_cascade_witness :
    ((∀ n w, thF n w = false) ∧
      lookupStr stC8.stores "u1" = some ⟨"u1", some (.objV []), []⟩ ∧
      stC8.tasks = [] ∧
      (UpdatePayload.foreignUserId ⟨"add", .objV [], some "u2"⟩) = some "u2" ∧
      lookupStr stC8.stores "u2" = some ⟨"u2", some (.objV []), [⟨"user", cbB⟩]⟩ ∧
      ("u2" : String) ≠ "u1") ∧
    ((update thF stC8 "following" "u1" ⟨"add", .objV [], some "u2"⟩ (some ⟨9, "cbk"⟩)
        (.ok (.numV 5))).events.countP (isComposeFor "u2") = 1 ∧
     lookupStr (update thF stC8 "following" "u1" ⟨"add", .objV [], some "u2"⟩
        (some ⟨9, "cbk"⟩) (.ok (.numV 5))).state.stores "u2" =
       some ⟨"u2", some composedUserData, [⟨"user", cbB⟩]⟩) :=
  ⟨⟨fun _ _ => rfl, rfl, rfl, rfl, rfl, by decide⟩,
   ⟨(update_cascade thF stC8 "following" "u1" "u2" ⟨"add", .objV [], some "u2"⟩
       ⟨9, "cbk"⟩ (.numV 5) ⟨"u1", some (.objV []), []⟩
       ⟨"u2", some (.objV []), [⟨"user", cbB⟩]⟩ _
       (fun _ _ => rfl) rfl rfl rfl rfl (by decide) rfl).1,
    (update_cascade thF stC8 "following" "u1" "u2" ⟨"add", .objV [], some "u2"⟩
       ⟨9, "cbk"⟩ (.numV 5) ⟨"u1", some (.objV []), []⟩
       ⟨"u2", some (.objV []), [⟨"user", cbB⟩]⟩ _
       (fun _ _ => rfl) rfl rfl rfl rfl (by decide) rfl).2.1⟩⟩

end StoreSpec
